import Mathlib

/-!
# Verification of the r3map chunk transfer and coherence engine

This file embeds the chunk transfer and coherence engine of r3map:
the chunked store, the synced (remote/local) store with per-chunk
authority, the background puller with its finalization protocol, and
the `Destination` orchestrator from `pkg/migration/destination.go`.

The `pkg/chunks` implementation files are not part of the provided
sources (only `puller_test.go` and the callers are), so the chunked
store, synced store and puller are modelled from the specification's
algorithm descriptions; the `Destination` orchestrator is embedded
from `pkg/migration/destination.go` directly.

Conventions of the embedding:
* bytes are `Nat`, buffers are `List Nat`;
* byte-addressed stores are total functions `Int → Nat` (Go `int64`
  offsets), chunk-granular state is indexed by the chunk index `k : Nat`
  with byte offset `k * C`;
* Go `int64` division/modulo are `Int.tdiv` / `Int.tmod` (truncation
  toward zero, as in Go);
* fallible operations return `Except StoreError _`; operations also
  return an access log so that "does not touch the underlying store /
  remote source" is a statement about the log.
-/

/-- Error kinds of the engine (spec §7), plus the surfaced error of a
failing `OnChunkIsLocal` hook. -/
inductive StoreError where
  | OutOfRange
  | RemoteUnavailable
  | LocalIO
  | FlushFailed
  | Cancelled
  | HookFailed
  deriving DecidableEq, Repr

/-! ## ChunkedStore

Modelled from the spec: `ChunkedReadWriterAt` (spec §4.1) wraps an
underlying byte-addressed store with geometry `(C, N)`; both `ReadAt`
and `WriteAt` require `len(buf) = C`, `off % C = 0`, `0 ≤ off/C < N`,
return `OutOfRange` otherwise, and forward verbatim when valid. -/

/-- A byte-addressed store: byte value at each `int64` offset. -/
def Store : Type := Int → Nat

/-- Reading `len` bytes at offset `off` from a byte-addressed store. -/
def storeRead (s : Store) (off : Int) (len : Nat) : List Nat :=
  (List.range len).map (fun i => s (off + i))

/-- Writing the buffer `buf` at offset `off` into a byte-addressed store. -/
def storeWrite (s : Store) (buf : List Nat) (off : Int) : Store :=
  fun a => if off ≤ a ∧ a < off + buf.length then buf.get! (a - off).toNat else s a

/-- One access to an underlying byte store, for access logs. -/
inductive Access where
  | read (off : Int) (len : Nat)
  | write (off : Int) (buf : List Nat)
  deriving DecidableEq, Repr

/-- Modelled from the spec: the chunked store of §4.1 — an underlying
store plus the fixed chunk geometry `(chunkSize, chunkCount)`. -/
structure ChunkedReadWriterAt where
  backend : Store
  chunkSize : Int
  chunkCount : Int

/-- Modelled from the spec: the validity condition of §4.1 for an access
with buffer length `len` at offset `off`: `len = C`, `off % C = 0` and
`0 ≤ off/C < N` (Go division truncates toward zero). -/
def chunkedValid (c : ChunkedReadWriterAt) (len : Nat) (off : Int) : Bool :=
  decide ((len : Int) = c.chunkSize ∧ Int.tmod off c.chunkSize = 0 ∧
    0 ≤ Int.tdiv off c.chunkSize ∧ Int.tdiv off c.chunkSize < c.chunkCount)

/-- Modelled from the spec: `ChunkedReadWriterAt.ReadAt` — on a valid
access, forward to the underlying store verbatim; otherwise return
`OutOfRange` without touching the underlying store (empty access log). -/
def ChunkedReadWriterAt.readAt (c : ChunkedReadWriterAt) (len : Nat) (off : Int) :
    Except StoreError (List Nat) × List Access :=
  if chunkedValid c len off then
    (Except.ok (storeRead c.backend off len), [Access.read off len])
  else
    (Except.error StoreError.OutOfRange, [])

/-- Modelled from the spec: `ChunkedReadWriterAt.WriteAt` — on a valid
access, forward to the underlying store verbatim; otherwise return
`OutOfRange` without touching the underlying store (empty access log). -/
def ChunkedReadWriterAt.writeAt (c : ChunkedReadWriterAt) (buf : List Nat) (off : Int) :
    Except StoreError ChunkedReadWriterAt × List Access :=
  if chunkedValid c buf.length off then
    (Except.ok { c with backend := storeWrite c.backend buf off }, [Access.write off buf])
  else
    (Except.error StoreError.OutOfRange, [])

/-! ## SyncedStore

Modelled from the spec: `SyncedReadWriterAt` (spec §4.2) holds a remote
read-only source, a local read/write store and per-chunk authority.
State is chunk-granular: chunk index `k : Nat` stands for byte offset
`k * C`.  The remote source is a partial function `Nat → Option (List Nat)`
(`none` models a failing remote fetch); the `OnChunkIsLocal` hook is a
function `Nat → Bool` (`false` models a hook error). -/

/-- Per-chunk authority (spec §3). -/
inductive Authority where
  | Remote
  | Local
  deriving DecidableEq, Repr

/-- Modelled from the spec: the mutable state of the synced store —
per-chunk authority plus the local store's bytes for each chunk. -/
structure SyncedState where
  authority : Nat → Authority
  localBytes : Nat → List Nat

/-- The initial synced state: every chunk `Remote` (spec §3), local
bytes caller-owned and arbitrary. -/
def initialSyncedState (L : Nat → List Nat) : SyncedState :=
  { authority := fun _ => Authority.Remote, localBytes := L }

/-- Outcome of one synced-store operation: the new state, the list of
chunk indices for which a remote fetch was attempted, and the result. -/
structure SyncedOut (α : Type) where
  state : SyncedState
  fetched : List Nat
  result : Except StoreError α

/-- Promotion `Remote → Local` of chunk `k`, storing `buf` locally. -/
def promote (s : SyncedState) (k : Nat) (buf : List Nat) : SyncedState :=
  { authority := fun j => if j = k then Authority.Local else s.authority j,
    localBytes := fun j => if j = k then buf else s.localBytes j }

/-- Modelled from the spec: `SyncedReadWriterAt.ReadAt` on chunk `k`
(spec §4.2 read algorithm).  If authority is `Local`, read from the
local store with no remote fetch.  Otherwise fetch from remote (failure
surfaces `RemoteUnavailable` with the state unchanged), write the bytes
locally, set authority `Local`, invoke the hook (a hook error is
surfaced but authority stays `Local`), and return the bytes. -/
def syncedReadAt (remote : Nat → Option (List Nat)) (hook : Nat → Bool)
    (s : SyncedState) (k : Nat) : SyncedOut (List Nat) :=
  match s.authority k with
  | Authority.Local => ⟨s, [], Except.ok (s.localBytes k)⟩
  | Authority.Remote =>
    match remote k with
    | none => ⟨s, [k], Except.error StoreError.RemoteUnavailable⟩
    | some buf =>
      if hook k then ⟨promote s k buf, [k], Except.ok buf⟩
      else ⟨promote s k buf, [k], Except.error StoreError.HookFailed⟩

/-- Modelled from the spec: `SyncedReadWriterAt.WriteAt` of buffer `B`
to chunk `k` (spec §4.2 write algorithm).  Identical to the read up to
promotion, except the caller's buffer is what ends up in the local
store; on a `Local` chunk the write only touches the local store. -/
def syncedWriteAt (remote : Nat → Option (List Nat)) (hook : Nat → Bool)
    (s : SyncedState) (k : Nat) (B : List Nat) : SyncedOut Unit :=
  match s.authority k with
  | Authority.Local =>
    ⟨{ s with localBytes := fun j => if j = k then B else s.localBytes j },
      [], Except.ok ()⟩
  | Authority.Remote =>
    match remote k with
    | none => ⟨s, [k], Except.error StoreError.RemoteUnavailable⟩
    | some _ =>
      if hook k then ⟨promote s k B, [k], Except.ok ()⟩
      else ⟨promote s k B, [k], Except.error StoreError.HookFailed⟩

/-- Modelled from the spec: `MarkAsRemote` (spec §4.2) — set the
authority of every listed chunk to `Remote`; local bytes are left
untouched. -/
def markAsRemote (s : SyncedState) (ks : List Nat) : SyncedState :=
  { s with authority := fun j => if j ∈ ks then Authority.Remote else s.authority j }

/-! ## Puller

Modelled from the spec: the puller (spec §4.3) drains a queue of chunk
offsets by issuing chunk-sized reads through the synced store; a worker
that hits an error forwards it to the error channel and stops.  The
per-chunk locks of the synced store serialize all operations on one
chunk (I4), so the cumulative effect of the workers draining the queue
is a sequential fold of synced-store reads over the dequeued offsets.
`Open(0)` spawns no workers, so `Wait` never returns: the session
result is `none` in that case. -/

/-- Outcome of draining a list of chunk offsets: the final synced
state, the chunk indices for which a remote fetch was attempted, and
the first worker error, if any. -/
structure PullOut where
  state : SyncedState
  fetched : List Nat
  err : Option StoreError

/-- Modelled from the spec: workers drain the queue by issuing
synced-store reads at the dequeued offsets (spec §4.3 worker loop);
the first error stops the drain and is forwarded. -/
def pullAll (remote : Nat → Option (List Nat)) (hook : Nat → Bool) :
    SyncedState → List Nat → PullOut
  | s, [] => ⟨s, [], none⟩
  | s, k :: ks =>
    let r := syncedReadAt remote hook s k
    match r.result with
    | Except.error e => ⟨r.state, r.fetched, some e⟩
    | Except.ok _ =>
      let rest := pullAll remote hook r.state ks
      ⟨rest.state, r.fetched ++ rest.fetched, rest.err⟩

/-- Modelled from the spec: the initial queue contents of the puller —
every chunk offset `k * C` for `k ∈ [0, N)` (spec §4.3 Queue). -/
def pullerInitialOffsets (C : Int) (N : Nat) : List Int :=
  (List.range N).map (fun k : Nat => (k : Int) * C)

/-- Modelled from the spec: a full puller session over `N` chunks with
`W` workers — `Open(W)`, the pre-finalization epoch pulling every chunk
in `[0, N)` against the remote bytes `remote₁`, then
`MarkAsRemote(D)` followed by `FinalizePull(D)` (the orchestrator's
order, spec §4.5), whose post-finalization epoch re-pulls exactly the
dirty chunks `D` against the remote bytes `remote₂` observed after
`MarkAsRemote(D)` took effect, then `Wait`.  With `W = 0` no worker
runs and `Wait` never returns (`none`); a worker error ends the
session with that epoch's outcome. -/
def pullerSession (W N : Nat) (D : List Nat)
    (remote₁ remote₂ : Nat → Option (List Nat)) (hook : Nat → Bool)
    (s₀ : SyncedState) : Option (PullOut × PullOut) :=
  if W = 0 then none
  else
    let e₁ := pullAll remote₁ hook s₀ (List.range N)
    match e₁.err with
    | some _ => some (e₁, ⟨e₁.state, [], e₁.err⟩)
    | none =>
      let s₂ := markAsRemote e₁.state D
      some (e₁, pullAll remote₂ hook s₂ D)

/-! ## SyncedStore traffic traces

User reads, user writes, background pulls and `MarkAsRemote` calls all
go through the synced store; a trace of such events drives the state
through `syncedReadAt` / `syncedWriteAt` / `markAsRemote`.  A
background pull is a synced-store read (spec §4.3), so `Ev.read`
covers both user reads and pulls. -/

/-- One synced-store event: a read or pull of chunk `k`, a write of
buffer `B` to chunk `k`, or a `MarkAsRemote` over the chunks `ks`. -/
inductive Ev where
  | read (k : Nat)
  | write (k : Nat) (B : List Nat)
  | mark (ks : List Nat)
  deriving DecidableEq, Repr

/-- The state after one event (results are discarded; errors leave the
state the operation produced). -/
def evStep (remote : Nat → Option (List Nat)) (hook : Nat → Bool)
    (s : SyncedState) : Ev → SyncedState
  | Ev.read k => (syncedReadAt remote hook s k).state
  | Ev.write k B => (syncedWriteAt remote hook s k B).state
  | Ev.mark ks => markAsRemote s ks

/-- The state after a trace of events. -/
def evRun (remote : Nat → Option (List Nat)) (hook : Nat → Bool)
    (s : SyncedState) (evs : List Ev) : SyncedState :=
  evs.foldl (evStep remote hook) s

/-- Whether an event can change chunk `k`'s bytes or mark it remote:
a write to `k`, or a `MarkAsRemote` whose set contains `k`. -/
def Ev.touches (e : Ev) (k : Nat) : Bool :=
  match e with
  | Ev.read _ => false
  | Ev.write j _ => j = k
  | Ev.mark ks => k ∈ ks

/-! ## Destination orchestrator

Embedded from `pkg/migration/destination.go` (this file is part of the
sources).  The orchestration claims are about which collaborator calls
are made, in which order, and what the method returns, so each method
is embedded as a function producing its call trace and result. -/

/-- `NewDestination` option defaulting (destination.go): a non-positive
`ChunkSize` becomes 4096 and a non-positive `PullWorkers` becomes 512. -/
def destinationDefaults (chunkSize pullWorkers : Int) : Int × Int :=
  (if chunkSize ≤ 0 then 4096 else chunkSize,
   if pullWorkers ≤ 0 then 512 else pullWorkers)

/-- `Destination.Open` (destination.go line 119): the chunk count is
`size / ChunkSize` with Go `int64` division (truncation toward zero). -/
def destinationChunkCount (size chunkSize : Int) : Int :=
  Int.tdiv size chunkSize

/-- `Destination.Open` (destination.go lines 142–150): the pull
priority function passed to `NewPuller` returns `1` for every offset. -/
def destinationPullPriority : Int → Int :=
  fun _offset => 1

/-- A collaborator call made by `Destination.FinalizePull`. -/
inductive FinalizeCall where
  | markAsRemote (offs : List Int)
  | pullerFinalizePull (offs : List Int)
  deriving DecidableEq, Repr

/-- `Destination.FinalizePull` (destination.go lines 210–225): call the
user-supplied `flush`; on error return it at once; otherwise call
`syncedReadWriter.MarkAsRemote(dirtyOffsets)` (when the synced store
exists) and then `puller.FinalizePull(dirtyOffsets)` (when the puller
exists), and return success.  The first component is the trace of
collaborator calls, in order. -/
def destinationFinalizePull {ε : Type} (flush : Except ε (List Int))
    (hasSyncedReadWriter hasPuller : Bool) : List FinalizeCall × Except ε Unit :=
  match flush with
  | Except.error e => ([], Except.error e)
  | Except.ok dirtyOffsets =>
    ((if hasSyncedReadWriter then [FinalizeCall.markAsRemote dirtyOffsets] else []) ++
     (if hasPuller then [FinalizeCall.pullerFinalizePull dirtyOffsets] else []),
     Except.ok ())

/-- A step taken by `Destination.Close`. -/
inductive CloseStep where
  | syncSyncer
  | closeDev
  | closePuller
  | closeServerFile
  | joinWaitGroup
  | closeErrChannel
  deriving DecidableEq, Repr

/-- `Destination.Close` (destination.go lines 227–249): sync the
syncer, close the device, close the puller and close the server file
(each when present, each error discarded with `_ =`), then wait on the
wait group, close the error channel and return `nil`.  The Booleans
`syncErr`, `devErr`, `pullerErr`, `fileErr` say whether the respective
inner call fails; the result is the returned error (`none` = `nil`). -/
def destinationClose (hasSyncer hasDev hasPuller hasServerFile : Bool)
    (_syncErr _devErr _pullerErr _fileErr : Bool) :
    List CloseStep × Option StoreError :=
  ((if hasSyncer then [CloseStep.syncSyncer] else []) ++
   (if hasDev then [CloseStep.closeDev] else []) ++
   (if hasPuller then [CloseStep.closePuller] else []) ++
   (if hasServerFile then [CloseStep.closeServerFile] else []) ++
   [CloseStep.joinWaitGroup, CloseStep.closeErrChannel],
   none)

/-! ## Basic lemmas about the synced store -/

lemma promote_authority (s : SyncedState) (k j : Nat) (buf : List Nat) :
    (promote s k buf).authority j =
      if j = k then Authority.Local else s.authority j := rfl

lemma promote_localBytes (s : SyncedState) (k j : Nat) (buf : List Nat) :
    (promote s k buf).localBytes j =
      if j = k then buf else s.localBytes j := rfl

/-- A read of a `Local` chunk is a pure local read: the state is
untouched and no remote fetch is attempted. -/
lemma syncedReadAt_local (remote : Nat → Option (List Nat)) (hook : Nat → Bool)
    (s : SyncedState) (k : Nat) (h : s.authority k = Authority.Local) :
    syncedReadAt remote hook s k = ⟨s, [], Except.ok (s.localBytes k)⟩ := by
  simp [syncedReadAt, h]

/-- A synced-store read of any chunk `j` leaves a `Local` chunk `k`
exactly as it was: authority stays `Local` and its local bytes are
unchanged. -/
lemma syncedReadAt_preserves_local (remote : Nat → Option (List Nat))
    (hook : Nat → Bool) (s : SyncedState) (j k : Nat)
    (h : s.authority k = Authority.Local) :
    (syncedReadAt remote hook s j).state.authority k = Authority.Local ∧
      (syncedReadAt remote hook s j).state.localBytes k = s.localBytes k := by
  cases haj : s.authority j with
  | Local => simp [syncedReadAt, haj, h]
  | Remote =>
    have hjk : j ≠ k := fun he => by rw [he, h] at haj; cases haj
    cases hr : remote j with
    | none => simp [syncedReadAt, haj, hr, h]
    | some buf =>
      have hkj : ¬k = j := fun he => hjk he.symm
      cases hh : hook j <;>
        simp [syncedReadAt, haj, hr, hh, promote, h, hkj]

/-- Draining any list of offsets through the puller leaves a `Local`
chunk `k` exactly as it was. -/
lemma pullAll_preserves_local (remote : Nat → Option (List Nat))
    (hook : Nat → Bool) (s : SyncedState) (ks : List Nat) (k : Nat)
    (h : s.authority k = Authority.Local) :
    (pullAll remote hook s ks).state.authority k = Authority.Local ∧
      (pullAll remote hook s ks).state.localBytes k = s.localBytes k := by
  induction ks generalizing s with
  | nil => exact ⟨h, rfl⟩
  | cons j js ih =>
    have hstep := syncedReadAt_preserves_local remote hook s j k h
    simp only [pullAll]
    cases hres : (syncedReadAt remote hook s j).result with
    | error e => simpa [hres] using hstep
    | ok v =>
      have hrest := ih _ hstep.1
      simp only [hres]
      exact ⟨hrest.1, hrest.2.trans hstep.2⟩

/-- A successful synced-store write of `B` to chunk `k` leaves the
chunk `Local` with local bytes `B`. -/
lemma syncedWriteAt_ok (remote : Nat → Option (List Nat)) (hook : Nat → Bool)
    (s : SyncedState) (k : Nat) (B : List Nat)
    (h : (syncedWriteAt remote hook s k B).result = Except.ok ()) :
    (syncedWriteAt remote hook s k B).state.authority k = Authority.Local ∧
      (syncedWriteAt remote hook s k B).state.localBytes k = B := by
  cases hak : s.authority k with
  | Local => simp [syncedWriteAt, hak]
  | Remote =>
    cases hr : remote k with
    | none => simp [syncedWriteAt, hak, hr] at h
    | some buf =>
      cases hh : hook k with
      | false => simp [syncedWriteAt, hak, hr, hh] at h
      | true => simp [syncedWriteAt, hak, hr, hh, promote]

/-- A synced-store read of chunk `j` leaves every other chunk `k ≠ j`
entirely unchanged (any authority). -/
lemma syncedReadAt_frame (remote : Nat → Option (List Nat)) (hook : Nat → Bool)
    (s : SyncedState) (j k : Nat) (hjk : j ≠ k) :
    (syncedReadAt remote hook s j).state.authority k = s.authority k ∧
      (syncedReadAt remote hook s j).state.localBytes k = s.localBytes k := by
  have hkj : ¬k = j := fun he => hjk he.symm
  cases haj : s.authority j with
  | Local => simp [syncedReadAt, haj]
  | Remote =>
    cases hr : remote j with
    | none => simp [syncedReadAt, haj, hr]
    | some buf =>
      cases hh : hook j <;> simp [syncedReadAt, haj, hr, hh, promote, hkj]

/-- A synced-store write to chunk `j` leaves every other chunk `k ≠ j`
entirely unchanged (any authority). -/
lemma syncedWriteAt_frame (remote : Nat → Option (List Nat)) (hook : Nat → Bool)
    (s : SyncedState) (j k : Nat) (B : List Nat) (hjk : j ≠ k) :
    (syncedWriteAt remote hook s j B).state.authority k = s.authority k ∧
      (syncedWriteAt remote hook s j B).state.localBytes k = s.localBytes k := by
  have hkj : ¬k = j := fun he => hjk he.symm
  cases haj : s.authority j with
  | Local => simp [syncedWriteAt, haj, hkj]
  | Remote =>
    cases hr : remote j with
    | none => simp [syncedWriteAt, haj, hr]
    | some buf =>
      cases hh : hook j <;> simp [syncedWriteAt, haj, hr, hh, promote, hkj]

/-! ## Claim C1 -/

/-- **C1.** A successful user write to chunk `k` is never overwritten
by subsequent background pulls: after the write, draining any list of
offsets through the puller leaves chunk `k` in `Local` authority with
the written bytes `B`, and a further pull of `k` through the synced
store attempts no remote fetch and leaves the state untouched, because
a pull fetches from remote only when the chunk's authority is
`Remote`. -/
theorem write_never_overwritten_by_pull
    (remote : Nat → Option (List Nat)) (hook : Nat → Bool)
    (s : SyncedState) (k : Nat) (B : List Nat) (js : List Nat)
    (hw : (syncedWriteAt remote hook s k B).result = Except.ok ()) :
    (pullAll remote hook (syncedWriteAt remote hook s k B).state js).state.authority k =
        Authority.Local ∧
      (pullAll remote hook (syncedWriteAt remote hook s k B).state js).state.localBytes k = B ∧
      syncedReadAt remote hook
          (pullAll remote hook (syncedWriteAt remote hook s k B).state js).state k =
        ⟨(pullAll remote hook (syncedWriteAt remote hook s k B).state js).state, [],
          Except.ok B⟩ := by
  have hs := syncedWriteAt_ok remote hook s k B hw
  have hp := pullAll_preserves_local remote hook _ js k hs.1
  refine ⟨hp.1, hp.2.trans hs.2, ?_⟩
  rw [syncedReadAt_local _ _ _ _ hp.1, hp.2.trans hs.2]

/-- Witness for C1 at a concrete input: two chunks, a write of
`[7, 7, 7, 7]` to chunk 1, then background pulls of chunks 0, 1, 0. -/
theorem write_never_overwritten_by_pull_witness :
    (pullAll (fun _ => some [9, 9, 9, 9]) (fun _ => true)
          (syncedWriteAt (fun _ => some [9, 9, 9, 9]) (fun _ => true)
            (initialSyncedState fun _ => [0, 0, 0, 0]) 1 [7, 7, 7, 7]).state
          [0, 1, 0]).state.authority 1 = Authority.Local ∧
      (pullAll (fun _ => some [9, 9, 9, 9]) (fun _ => true)
          (syncedWriteAt (fun _ => some [9, 9, 9, 9]) (fun _ => true)
            (initialSyncedState fun _ => [0, 0, 0, 0]) 1 [7, 7, 7, 7]).state
          [0, 1, 0]).state.localBytes 1 = [7, 7, 7, 7] ∧
      syncedReadAt (fun _ => some [9, 9, 9, 9]) (fun _ => true)
          (pullAll (fun _ => some [9, 9, 9, 9]) (fun _ => true)
            (syncedWriteAt (fun _ => some [9, 9, 9, 9]) (fun _ => true)
              (initialSyncedState fun _ => [0, 0, 0, 0]) 1 [7, 7, 7, 7]).state
            [0, 1, 0]).state 1 =
        ⟨(pullAll (fun _ => some [9, 9, 9, 9]) (fun _ => true)
            (syncedWriteAt (fun _ => some [9, 9, 9, 9]) (fun _ => true)
              (initialSyncedState fun _ => [0, 0, 0, 0]) 1 [7, 7, 7, 7]).state
            [0, 1, 0]).state, [], Except.ok [7, 7, 7, 7]⟩ :=
  write_never_overwritten_by_pull (fun _ => some [9, 9, 9, 9]) (fun _ => true)
    (initialSyncedState fun _ => [0, 0, 0, 0]) 1 [7, 7, 7, 7] [0, 1, 0] rfl

/-! ## Claim C3 -/

/-- An event that does not touch chunk `k` (no write to `k`, no
`MarkAsRemote` containing `k`) leaves a `Local` chunk `k` as it was. -/
lemma evStep_preserves_untouched (remote : Nat → Option (List Nat))
    (hook : Nat → Bool) (s : SyncedState) (k : Nat) (e : Ev)
    (ht : e.touches k = false) (h : s.authority k = Authority.Local) :
    (evStep remote hook s e).authority k = Authority.Local ∧
      (evStep remote hook s e).localBytes k = s.localBytes k := by
  cases e with
  | read j => exact syncedReadAt_preserves_local remote hook s j k h
  | write j B =>
    have hjk : j ≠ k := by
      simpa [Ev.touches, decide_eq_false_iff_not] using ht
    have hf := syncedWriteAt_frame remote hook s j k B hjk
    exact ⟨hf.1.trans h, hf.2⟩
  | mark ks =>
    have hk : ¬k ∈ ks := by
      simpa [Ev.touches, decide_eq_false_iff_not] using ht
    exact ⟨by simp [evStep, markAsRemote, hk, h], rfl⟩

/-- A trace of events, none of which touches chunk `k`, leaves a
`Local` chunk `k` as it was. -/
lemma evRun_preserves_untouched (remote : Nat → Option (List Nat))
    (hook : Nat → Bool) (s : SyncedState) (k : Nat) (evs : List Ev)
    (ht : ∀ e ∈ evs, e.touches k = false) (h : s.authority k = Authority.Local) :
    (evRun remote hook s evs).authority k = Authority.Local ∧
      (evRun remote hook s evs).localBytes k = s.localBytes k := by
  induction evs generalizing s with
  | nil => exact ⟨h, rfl⟩
  | cons e es ih =>
    have hstep := evStep_preserves_untouched remote hook s k e
      (ht e (List.mem_cons_self e es)) h
    have hrest := ih (evStep remote hook s e)
      (fun x hx => ht x (List.mem_cons_of_mem e hx)) hstep.1
    exact ⟨hrest.1, hrest.2.trans hstep.2⟩

/-- **C3.** Round-trip: for every chunk `k` and chunk-sized buffer `B`,
a successful write of `B` to chunk `k` through the synced store followed
by any trace of synced-store traffic that does not write `k` and does
not `MarkAsRemote` `k` — reads and pulls anywhere, writes to other
chunks, marks of other chunks, in any order — makes a read of chunk `k`
return exactly `B`, regardless of the chunk's prior authority. -/
theorem write_read_roundtrip (remote : Nat → Option (List Nat))
    (hook : Nat → Bool) (s : SyncedState) (k : Nat) (B : List Nat)
    (evs : List Ev)
    (hw : (syncedWriteAt remote hook s k B).result = Except.ok ())
    (ht : ∀ e ∈ evs, e.touches k = false) :
    (syncedReadAt remote hook
        (evRun remote hook (syncedWriteAt remote hook s k B).state evs) k).result =
      Except.ok B := by
  have hs := syncedWriteAt_ok remote hook s k B hw
  have hp := evRun_preserves_untouched remote hook _ k evs ht hs.1
  rw [syncedReadAt_local _ _ _ _ hp.1, hp.2.trans hs.2]

/-- Witness for C3 at a concrete input: write `[5, 6, 7, 8]` to chunk 0
(initially `Remote`), then a pull of chunk 0, a write to chunk 1, a
`MarkAsRemote` of chunk 1 and another read of chunk 1; the read of
chunk 0 still returns `[5, 6, 7, 8]`. -/
theorem write_read_roundtrip_witness :
    (syncedReadAt (fun _ => some [9, 9, 9, 9]) (fun _ => true)
        (evRun (fun _ => some [9, 9, 9, 9]) (fun _ => true)
          (syncedWriteAt (fun _ => some [9, 9, 9, 9]) (fun _ => true)
            (initialSyncedState fun _ => [0, 0, 0, 0]) 0 [5, 6, 7, 8]).state
          [Ev.read 0, Ev.write 1 [3, 3, 3, 3], Ev.mark [1], Ev.read 1]) 0).result =
      Except.ok [5, 6, 7, 8] :=
  write_read_roundtrip (fun _ => some [9, 9, 9, 9]) (fun _ => true)
    (initialSyncedState fun _ => [0, 0, 0, 0]) 0 [5, 6, 7, 8]
    [Ev.read 0, Ev.write 1 [3, 3, 3, 3], Ev.mark [1], Ev.read 1] rfl (by decide)

/-! ## Claim C6 -/

/-- **C6.** For a chunk in `Remote` authority whose remote fetch fails,
both the synced-store read and the synced-store write return
`RemoteUnavailable` and leave the state exactly as it was: the chunk's
authority remains `Remote` (so a retry is legitimate) and the local
store's bytes for the chunk are unchanged. -/
theorem remote_failure_leaves_state (remote : Nat → Option (List Nat))
    (hook : Nat → Bool) (s : SyncedState) (k : Nat) (B : List Nat)
    (ha : s.authority k = Authority.Remote) (hr : remote k = none) :
    syncedReadAt remote hook s k =
        ⟨s, [k], Except.error StoreError.RemoteUnavailable⟩ ∧
      syncedWriteAt remote hook s k B =
        ⟨s, [k], Except.error StoreError.RemoteUnavailable⟩ := by
  constructor <;> simp [syncedReadAt, syncedWriteAt, ha, hr]

/-- Witness for C6 at a concrete input: an initial (all-`Remote`) state
and a remote source that fails on every chunk. -/
theorem remote_failure_leaves_state_witness :
    syncedReadAt (fun _ => none) (fun _ => true)
        (initialSyncedState fun _ => [0, 0, 0, 0]) 0 =
      ⟨initialSyncedState fun _ => [0, 0, 0, 0], [0],
        Except.error StoreError.RemoteUnavailable⟩ ∧
      syncedWriteAt (fun _ => none) (fun _ => true)
          (initialSyncedState fun _ => [0, 0, 0, 0]) 0 [1, 2, 3, 4] =
        ⟨initialSyncedState fun _ => [0, 0, 0, 0], [0],
          Except.error StoreError.RemoteUnavailable⟩ :=
  remote_failure_leaves_state (fun _ => none) (fun _ => true)
    (initialSyncedState fun _ => [0, 0, 0, 0]) 0 [1, 2, 3, 4] rfl rfl

/-! ## Puller completion lemmas (for C2 and C4) -/

/-- Chunk `k` is `Local` and its local bytes are the current remote
bytes for `k`. -/
def GoodChunk (remote : Nat → Option (List Nat)) (s : SyncedState) (k : Nat) : Prop :=
  s.authority k = Authority.Local ∧ s.localBytes k = (remote k).getD []

/-- A synced-store read preserves `GoodChunk`. -/
lemma syncedReadAt_preserves_good (remote : Nat → Option (List Nat))
    (hook : Nat → Bool) (s : SyncedState) (j k : Nat)
    (hg : GoodChunk remote s k) :
    GoodChunk remote (syncedReadAt remote hook s j).state k := by
  have hp := syncedReadAt_preserves_local remote hook s j k hg.1
  exact ⟨hp.1, hp.2.trans hg.2⟩

/-- Draining any list of offsets preserves `GoodChunk`. -/
lemma pullAll_preserves_good (remote : Nat → Option (List Nat))
    (hook : Nat → Bool) (s : SyncedState) (ks : List Nat) (k : Nat)
    (hg : GoodChunk remote s k) :
    GoodChunk remote (pullAll remote hook s ks).state k := by
  have hp := pullAll_preserves_local remote hook s ks k hg.1
  exact ⟨hp.1, hp.2.trans hg.2⟩

/-- Reading a `Remote` chunk whose remote bytes exist with a succeeding
hook succeeds and establishes `GoodChunk`. -/
lemma syncedReadAt_establishes (remote : Nat → Option (List Nat))
    (hook : Nat → Bool) (s : SyncedState) (k : Nat)
    (ha : s.authority k = Authority.Remote)
    (hr : (remote k).isSome) (hh : hook k = true) :
    (∃ v, (syncedReadAt remote hook s k).result = Except.ok v) ∧
      GoodChunk remote (syncedReadAt remote hook s k).state k := by
  obtain ⟨buf, hbuf⟩ := Option.isSome_iff_exists.mp hr
  refine ⟨⟨buf, ?_⟩, ?_, ?_⟩ <;>
    simp [syncedReadAt, ha, hbuf, hh, promote, GoodChunk]

/-- A synced-store read of a chunk whose remote bytes exist with a
succeeding hook succeeds from any state. -/
lemma syncedReadAt_ok (remote : Nat → Option (List Nat)) (hook : Nat → Bool)
    (s : SyncedState) (k : Nat) (hr : (remote k).isSome) (hh : hook k = true) :
    ∃ v, (syncedReadAt remote hook s k).result = Except.ok v := by
  cases ha : s.authority k with
  | Local => exact ⟨s.localBytes k, by simp [syncedReadAt, ha]⟩
  | Remote => exact (syncedReadAt_establishes remote hook s k ha hr hh).1

/-- Draining a list of offsets in which every chunk either is `Remote`
or already satisfies `GoodChunk`, with remote bytes available and a
succeeding hook throughout, reports no error and leaves every drained
chunk `Local` with the current remote bytes. -/
lemma pullAll_establishes (remote : Nat → Option (List Nat))
    (hook : Nat → Bool) (ks : List Nat) :
    ∀ s : SyncedState,
      (∀ k ∈ ks, (remote k).isSome ∧ hook k = true) →
      (∀ k ∈ ks, s.authority k = Authority.Remote ∨ GoodChunk remote s k) →
      (pullAll remote hook s ks).err = none ∧
        ∀ k ∈ ks, GoodChunk remote (pullAll remote hook s ks).state k := by
  induction ks with
  | nil => intro s _ _; exact ⟨rfl, by simp⟩
  | cons j js ih =>
    intro s hok hinv
    have hjok := hok j (List.mem_cons_self j js)
    have hstepj : (∃ v, (syncedReadAt remote hook s j).result = Except.ok v) ∧
        GoodChunk remote (syncedReadAt remote hook s j).state j := by
      rcases hinv j (List.mem_cons_self j js) with haj | hgood
      · exact syncedReadAt_establishes remote hook s j haj hjok.1 hjok.2
      · rw [syncedReadAt_local remote hook s j hgood.1]
        exact ⟨⟨s.localBytes j, rfl⟩, hgood⟩
    obtain ⟨v, hres⟩ := hstepj.1
    have hinv' : ∀ k ∈ js,
        (syncedReadAt remote hook s j).state.authority k = Authority.Remote ∨
          GoodChunk remote (syncedReadAt remote hook s j).state k := by
      intro k hk
      by_cases hjk : j = k
      · exact Or.inr (hjk ▸ hstepj.2)
      · rcases hinv k (List.mem_cons_of_mem j hk) with ha | hg
        · exact Or.inl ((syncedReadAt_frame remote hook s j k hjk).1.trans ha)
        · exact Or.inr (syncedReadAt_preserves_good remote hook s j k hg)
    have hrest := ih (syncedReadAt remote hook s j).state
      (fun k hk => hok k (List.mem_cons_of_mem j hk)) hinv'
    refine ⟨?_, ?_⟩
    · simp only [pullAll, hres]
      exact hrest.1
    · intro k hk
      rcases List.mem_cons.mp hk with rfl | hk'
      · have := pullAll_preserves_good remote hook
          (syncedReadAt remote hook s k).state js k hstepj.2
        simpa only [pullAll, hres] using this
      · have := hrest.2 k hk'
        simpa only [pullAll, hres] using this

/-- Draining offsets not containing `k` leaves chunk `k` entirely
unchanged. -/
lemma pullAll_frame (remote : Nat → Option (List Nat)) (hook : Nat → Bool)
    (s : SyncedState) (ks : List Nat) (k : Nat) (hk : k ∉ ks) :
    (pullAll remote hook s ks).state.authority k = s.authority k ∧
      (pullAll remote hook s ks).state.localBytes k = s.localBytes k := by
  induction ks generalizing s with
  | nil => exact ⟨rfl, rfl⟩
  | cons j js ih =>
    have hjk : j ≠ k := fun he => hk (he ▸ List.mem_cons_self j js)
    have hstep := syncedReadAt_frame remote hook s j k hjk
    simp only [pullAll]
    cases hres : (syncedReadAt remote hook s j).result with
    | error e => simpa [hres] using hstep
    | ok v =>
      have hrest := ih (fun hx => hk (List.mem_cons_of_mem j hx))
        (s := (syncedReadAt remote hook s j).state)
      simp only [hres]
      exact ⟨hrest.1.trans hstep.1, hrest.2.trans hstep.2⟩

/-- A single synced-store read only ever attempts to fetch the chunk it
reads. -/
lemma syncedReadAt_fetched (remote : Nat → Option (List Nat))
    (hook : Nat → Bool) (s : SyncedState) (k : Nat) :
    ∀ j ∈ (syncedReadAt remote hook s k).fetched, j = k := by
  cases ha : s.authority k with
  | Local => simp [syncedReadAt, ha]
  | Remote =>
    cases hr : remote k with
    | none => simp [syncedReadAt, ha, hr]
    | some buf => cases hh : hook k <;> simp [syncedReadAt, ha, hr, hh]

/-- Draining a list of offsets only ever attempts remote fetches for
chunks in that list. -/
lemma pullAll_fetched_subset (remote : Nat → Option (List Nat))
    (hook : Nat → Bool) (s : SyncedState) (ks : List Nat) :
    ∀ j ∈ (pullAll remote hook s ks).fetched, j ∈ ks := by
  induction ks generalizing s with
  | nil => simp [pullAll]
  | cons k₀ ks ih =>
    intro j hj
    have hone := syncedReadAt_fetched remote hook s k₀
    simp only [pullAll] at hj
    cases hres : (syncedReadAt remote hook s k₀).result with
    | error e =>
      rw [hres] at hj
      exact (hone j hj) ▸ List.mem_cons_self k₀ ks
    | ok v =>
      rw [hres] at hj
      rcases List.mem_append.mp hj with hl | hr
      · exact (hone j hl) ▸ List.mem_cons_self k₀ ks
      · exact List.mem_cons_of_mem k₀ (ih (s := (syncedReadAt remote hook s k₀).state) j hr)

lemma markAsRemote_authority (s : SyncedState) (D : List Nat) (j : Nat) :
    (markAsRemote s D).authority j =
      if j ∈ D then Authority.Remote else s.authority j := rfl

lemma markAsRemote_localBytes (s : SyncedState) (D : List Nat) (j : Nat) :
    (markAsRemote s D).localBytes j = s.localBytes j := rfl

/-! ## Claim C4 -/

/-- **C4.** For every finite chunk count `N` and worker count `W ≥ 1`,
a puller session started with `Open(W)` followed by `FinalizePull(∅)`
has `Wait` terminate (the session yields a result rather than blocking
forever) with no error, and at that point every one of the `N` chunks
has authority `Local`.  The hypotheses say the remote source and the
promotion hook succeed on the managed chunks. -/
theorem pull_completion (W N : Nat) (remote₁ remote₂ : Nat → Option (List Nat))
    (hook : Nat → Bool) (L : Nat → List Nat) (hW : 1 ≤ W)
    (hok : ∀ k, k < N → (remote₁ k).isSome ∧ hook k = true) :
    ∃ p₁ p₂, pullerSession W N [] remote₁ remote₂ hook (initialSyncedState L) =
        some (p₁, p₂) ∧ p₂.err = none ∧
        ∀ k, k < N → p₂.state.authority k = Authority.Local := by
  have hW0 : ¬W = 0 := Nat.one_le_iff_ne_zero.mp hW
  have h₁ := pullAll_establishes remote₁ hook (List.range N) (initialSyncedState L)
    (fun k hk => hok k (List.mem_range.mp hk)) (fun k _ => Or.inl rfl)
  refine ⟨pullAll remote₁ hook (initialSyncedState L) (List.range N),
    pullAll remote₂ hook
      (markAsRemote (pullAll remote₁ hook (initialSyncedState L) (List.range N)).state []) [],
    ?_, rfl, ?_⟩
  · simp [pullerSession, hW0, h₁.1]
  · intro k hk
    have hg := (h₁.2 k (List.mem_range.mpr hk)).1
    simpa [pullAll, markAsRemote_authority] using hg

/-- Witness for C4 at a concrete input: `N = 2` chunks, `W = 1`
worker, a total remote source and an always-succeeding hook. -/
theorem pull_completion_witness :
    ∃ p₁ p₂, pullerSession 1 2 [] (fun k => some [k, k, k, k]) (fun _ => some [])
        (fun _ => true) (initialSyncedState fun _ => [0, 0, 0, 0]) = some (p₁, p₂) ∧
      p₂.err = none ∧ ∀ k, k < 2 → p₂.state.authority k = Authority.Local :=
  pull_completion 1 2 (fun k => some [k, k, k, k]) (fun _ => some []) (fun _ => true)
    (fun _ => [0, 0, 0, 0]) (by decide) (by decide)

/-! ## Claim C2 -/

/-- **C2.** After `FinalizePull(D)` and a successful `Wait`, every
chunk in the dirty set `D` is in `Local` authority with local bytes
equal to the remote bytes observed after `MarkAsRemote(D)` took effect
(`remote₂`, as opposed to the pre-finalization remote bytes
`remote₁`); every chunk outside `D` that was pulled before finalization
keeps its pre-finalization bytes (`remote₁`) and is never re-pulled —
the post-finalization epoch attempts remote fetches only for chunks in
`D`. -/
theorem finalization_drain (W N : Nat) (D : List Nat)
    (remote₁ remote₂ : Nat → Option (List Nat)) (hook : Nat → Bool)
    (L : Nat → List Nat) (hW : 1 ≤ W)
    (h₁ : ∀ k, k < N → (remote₁ k).isSome ∧ hook k = true)
    (h₂ : ∀ k ∈ D, (remote₂ k).isSome ∧ hook k = true) :
    ∃ p₁ p₂, pullerSession W N D remote₁ remote₂ hook (initialSyncedState L) =
        some (p₁, p₂) ∧
      p₂.err = none ∧
      (∀ k ∈ D, p₂.state.authority k = Authority.Local ∧
        p₂.state.localBytes k = (remote₂ k).getD []) ∧
      (∀ k, k < N → k ∉ D → p₂.state.authority k = Authority.Local ∧
        p₂.state.localBytes k = (remote₁ k).getD []) ∧
      (∀ j ∈ p₂.fetched, j ∈ D) := by
  have hW0 : ¬W = 0 := Nat.one_le_iff_ne_zero.mp hW
  have h₁' := pullAll_establishes remote₁ hook (List.range N) (initialSyncedState L)
    (fun k hk => h₁ k (List.mem_range.mp hk)) (fun k _ => Or.inl rfl)
  have h₂' := pullAll_establishes remote₂ hook D
    (markAsRemote (pullAll remote₁ hook (initialSyncedState L) (List.range N)).state D)
    h₂ (fun k hk => Or.inl (by simp [markAsRemote_authority, hk]))
  refine ⟨pullAll remote₁ hook (initialSyncedState L) (List.range N),
    pullAll remote₂ hook
      (markAsRemote (pullAll remote₁ hook (initialSyncedState L) (List.range N)).state D) D,
    ?_, h₂'.1, ?_, ?_, pullAll_fetched_subset remote₂ hook _ D⟩
  · simp [pullerSession, hW0, h₁'.1]
  · exact fun k hk => ⟨(h₂'.2 k hk).1, (h₂'.2 k hk).2⟩
  · intro k hkN hkD
    have hframe := pullAll_frame remote₂ hook
      (markAsRemote (pullAll remote₁ hook (initialSyncedState L) (List.range N)).state D)
      D k hkD
    have hgood := h₁'.2 k (List.mem_range.mpr hkN)
    constructor
    · rw [hframe.1, markAsRemote_authority, if_neg hkD]
      exact hgood.1
    · rw [hframe.2, markAsRemote_localBytes]
      exact hgood.2

/-- Witness for C2 at a concrete input: `N = 3` chunks, `W = 2`
workers, dirty set `D = [2]`, the remote bytes changing between the
pre- and post-finalization epochs. -/
theorem finalization_drain_witness :
    ∃ p₁ p₂, pullerSession 2 3 [2] (fun k => some [k, k, k, k])
        (fun k => some [k + 10, k + 10, k + 10, k + 10]) (fun _ => true)
        (initialSyncedState fun _ => [0, 0, 0, 0]) = some (p₁, p₂) ∧
      p₂.err = none ∧
      (∀ k ∈ [2], p₂.state.authority k = Authority.Local ∧
        p₂.state.localBytes k =
          ((fun k => some [k + 10, k + 10, k + 10, k + 10]) k).getD []) ∧
      (∀ k, k < 3 → k ∉ [2] → p₂.state.authority k = Authority.Local ∧
        p₂.state.localBytes k = ((fun k => some [k, k, k, k]) k).getD []) ∧
      (∀ j ∈ p₂.fetched, j ∈ [2]) :=
  finalization_drain 2 3 [2] (fun k => some [k, k, k, k])
    (fun k => some [k + 10, k + 10, k + 10, k + 10]) (fun _ => true)
    (fun _ => [0, 0, 0, 0]) (by decide) (by decide) (by decide)

/-! ## Claim C5 -/

/-- **C5.** A chunked-store `ReadAt` or `WriteAt` whose buffer length
is not the chunk size, or whose offset is not chunk-aligned, or whose
chunk index `off / C` lies outside `[0, N)`, returns `OutOfRange` with
no access to the underlying store (empty access log); when all three
conditions hold, the call is forwarded verbatim to the underlying
store. -/
theorem chunked_alignment_enforcement (c : ChunkedReadWriterAt) (len : Nat)
    (off : Int) (buf : List Nat) :
    (¬((len : Int) = c.chunkSize ∧ Int.tmod off c.chunkSize = 0 ∧
        0 ≤ Int.tdiv off c.chunkSize ∧ Int.tdiv off c.chunkSize < c.chunkCount) →
      c.readAt len off = (Except.error StoreError.OutOfRange, [])) ∧
    (¬((buf.length : Int) = c.chunkSize ∧ Int.tmod off c.chunkSize = 0 ∧
        0 ≤ Int.tdiv off c.chunkSize ∧ Int.tdiv off c.chunkSize < c.chunkCount) →
      c.writeAt buf off = (Except.error StoreError.OutOfRange, [])) ∧
    (((len : Int) = c.chunkSize ∧ Int.tmod off c.chunkSize = 0 ∧
        0 ≤ Int.tdiv off c.chunkSize ∧ Int.tdiv off c.chunkSize < c.chunkCount) →
      c.readAt len off =
        (Except.ok (storeRead c.backend off len), [Access.read off len])) ∧
    (((buf.length : Int) = c.chunkSize ∧ Int.tmod off c.chunkSize = 0 ∧
        0 ≤ Int.tdiv off c.chunkSize ∧ Int.tdiv off c.chunkSize < c.chunkCount) →
      c.writeAt buf off =
        (Except.ok { c with backend := storeWrite c.backend buf off },
          [Access.write off buf])) := by
  refine ⟨fun h => ?_, fun h => ?_, fun h => ?_, fun h => ?_⟩ <;>
    simp [ChunkedReadWriterAt.readAt, ChunkedReadWriterAt.writeAt, chunkedValid, h]

/-- Witness for C5 at concrete inputs (chunk size 4, chunk count 2):
a read with buffer length 3 is rejected without touching the
underlying store, and an aligned in-range read of length 4 at offset
4 is forwarded verbatim. -/
theorem chunked_alignment_enforcement_witness :
    ChunkedReadWriterAt.readAt ⟨fun _ => 0, 4, 2⟩ 3 0 =
        (Except.error StoreError.OutOfRange, []) ∧
      ChunkedReadWriterAt.readAt ⟨fun _ => 0, 4, 2⟩ 4 4 =
        (Except.ok (storeRead (fun _ => 0) 4 4), [Access.read 4 4]) :=
  ⟨(chunked_alignment_enforcement ⟨fun _ => 0, 4, 2⟩ 3 0 []).1 (by decide),
   (chunked_alignment_enforcement ⟨fun _ => 0, 4, 2⟩ 4 4 []).2.2.1 (by decide)⟩

/-! ## Claim C7 -/

/-- **C7.** `Destination.FinalizePull` first invokes the user-supplied
flush; if flush errors, it returns that error with no collaborator
call made — neither `MarkAsRemote` nor the puller's `FinalizePull`, so
the engine stays in its pre-finalization state; otherwise it calls
`SyncedStore.MarkAsRemote` on the dirty offsets strictly before the
puller's `FinalizePull` on them. -/
theorem finalize_flush_first {ε : Type} (e : ε) (D : List Int) (hs hp : Bool) :
    destinationFinalizePull (Except.error e) hs hp = ([], Except.error e) ∧
      destinationFinalizePull (Except.ok D : Except ε (List Int)) true true =
        ([FinalizeCall.markAsRemote D, FinalizeCall.pullerFinalizePull D],
          Except.ok ()) :=
  ⟨rfl, rfl⟩

/-! ## Claim C8 -/

/-- **C8 counterexample.** The `Destination` orchestrator does not
build the puller with a user-supplied priority function: the priority
function it passes (destination.go lines 147–149) returns `1` at
offset `8`, disagreeing there with the caller's linear heuristic
`p(off) = off`, which returns `8`; there is no priority collaborator
in the `Destination` API at all. -/
theorem destination_priority_not_user_supplied :
    destinationPullPriority 8 = 1 ∧ destinationPullPriority 8 ≠ 8 :=
  ⟨rfl, by decide⟩

/-- **C8 amended.** The `Destination` orchestrator builds and starts
the puller with a hard-coded priority function that returns `1` for
every offset, so the puller's dequeue order is not governed by any
caller-supplied heuristic. -/
theorem destination_priority_constant (off off' : Int) :
    destinationPullPriority off = 1 ∧
      destinationPullPriority off = destinationPullPriority off' :=
  ⟨rfl, rfl⟩

/-! ## Claim C9 -/

/-- **C9.** `Destination.Close` never propagates inner errors: its
behaviour — the steps taken and the returned value — is identical
whether or not syncing the adapter, closing the device, closing the
puller, or closing the device file fail; it always waits on the wait
group (joining all background tasks); and it returns `nil`. -/
theorem close_best_effort (h₁ h₂ h₃ h₄ e₁ e₂ e₃ e₄ f₁ f₂ f₃ f₄ : Bool) :
    (destinationClose h₁ h₂ h₃ h₄ e₁ e₂ e₃ e₄).2 = none ∧
      destinationClose h₁ h₂ h₃ h₄ e₁ e₂ e₃ e₄ =
        destinationClose h₁ h₂ h₃ h₄ f₁ f₂ f₃ f₄ ∧
      CloseStep.joinWaitGroup ∈ (destinationClose h₁ h₂ h₃ h₄ e₁ e₂ e₃ e₄).1 := by
  refine ⟨rfl, rfl, ?_⟩
  simp [destinationClose]

/-! ## Claim C10 -/

/-- **C10.** `Destination.Open` computes the chunk count as
`size / ChunkSize` with truncating integer division, so when `size` is
not a multiple of the chunk size the trailing partial chunk is
excluded from the managed address space: every byte offset in
`[N·C, size)` is invalid for the chunked store (whatever the buffer
length) and is not among the offsets the puller initially
enumerates. -/
theorem destination_truncating_chunk_count (size C : Int) (hC : 0 < C)
    (hs : 0 ≤ size) (_hpart : Int.tmod size C ≠ 0) :
    destinationChunkCount size C = Int.tdiv size C ∧
    ∀ off : Int, destinationChunkCount size C * C ≤ off → off < size →
      (∀ (b : Store) (len : Nat),
        chunkedValid ⟨b, C, destinationChunkCount size C⟩ len off = false) ∧
      off ∉ pullerInitialOffsets C (destinationChunkCount size C).toNat := by
  refine ⟨rfl, ?_⟩
  intro off hlo hhi
  have hN0 : 0 ≤ Int.tdiv size C := Int.tdiv_nonneg hs hC.le
  have hoff0 : 0 ≤ off := le_trans (mul_nonneg hN0 hC.le) hlo
  have htd : Int.tdiv size C ≤ Int.tdiv off C := by
    rw [Int.tdiv_eq_ediv hoff0 hC.le]
    exact (Int.le_ediv_iff_mul_le hC).mpr hlo
  constructor
  · intro b len
    have hnot : ¬((len : Int) = C ∧ Int.tmod off C = 0 ∧
        0 ≤ Int.tdiv off C ∧ Int.tdiv off C < Int.tdiv size C) := by
      rintro ⟨-, -, -, hlt⟩
      exact absurd (lt_of_le_of_lt htd hlt) (lt_irrefl _)
    exact decide_eq_false hnot
  · intro hmem
    obtain ⟨k, hk, hoff⟩ := List.mem_map.mp hmem
    have hkN : (k : Int) < Int.tdiv size C := by
      have h1 : (k : Int) < ((Int.tdiv size C).toNat : Int) :=
        Int.ofNat_lt.mpr (List.mem_range.mp hk)
      rwa [Int.toNat_of_nonneg hN0] at h1
    have hlt : off < Int.tdiv size C * C := by
      rw [← hoff]
      exact mul_lt_mul_of_pos_right hkN hC
    exact absurd hlo (not_le.mpr hlt)

/-- Witness for C10 at a concrete input: size 10, chunk size 4, giving
chunk count 2; byte offset 9 lies in the excluded trailing partial
chunk `[8, 10)`. -/
theorem destination_truncating_chunk_count_witness :
    destinationChunkCount 10 4 = Int.tdiv 10 4 ∧
      chunkedValid ⟨fun _ => 0, 4, destinationChunkCount 10 4⟩ 4 9 = false ∧
      (9 : Int) ∉ pullerInitialOffsets 4 (destinationChunkCount 10 4).toNat :=
  ⟨(destination_truncating_chunk_count 10 4 (by decide) (by decide) (by decide)).1,
   ((destination_truncating_chunk_count 10 4 (by decide) (by decide)
      (by decide)).2 9 (by decide) (by decide)).1 (fun _ => 0) 4,
   ((destination_truncating_chunk_count 10 4 (by decide) (by decide)
      (by decide)).2 9 (by decide) (by decide)).2⟩
